import Mathlib

/-!
# Toxic: name lookup helpers and game utility macros

A shallow embedding of the parts of `src/name_lookup.c`, `src/game_base.h` and
`src/game_util.h` that the checked properties are about.

Conventions of the embedding:

* a C string is the list of its `char`s before the terminating NUL (`CStr`); a `char`
  buffer holding binary data is a list of `char`s as well; every `Char` stands for one C `char`;
* an output buffer is passed in with its old contents and returned with its new contents;
* `size_t` arithmetic that can wrap is taken modulo `2 ^ 64`;
* functions, macros and constants that the sources use without defining them
  (`MAX_STR_SIZE`, `TOX_ADDRESS_SIZE`, `str_to_lower`, `hex_string_to_bytes`,
  `tox_pk_string_to_bytes`) are explicit parameters of the definitions that use them; the
  macro `MAX` is taken to be the usual maximum;
* the nameserver list file is given by the lines that `fgets` delivers, one after the other.
-/

namespace Toxic

/-! ## C strings and the libc functions the sources call -/

/-- The contents of a NUL-terminated C string, without the terminator. -/
abbrev CStr := List Char

/-- The libc `strlen`. -/
def strlen (s : CStr) : Nat := s.length

/-- Subtraction on `size_t` (64 bit): the result wraps around below zero. -/
def size_sub (a b : Nat) : Nat := (a + 2 ^ 64 - b) % 2 ^ 64

/-- The call `snprintf(buf, size, fmt, ...)` where `s` is the fully formatted text: at most
`size - 1` characters of `s` are stored (then a NUL), and nothing is stored when `size` is 0. -/
def snprintf (buf : CStr) (size : Nat) (s : CStr) : CStr :=
  if size = 0 then buf else s.take (size - 1)

/-- The call `memcpy(dst, src, n)`: the first `n` chars of `dst` are replaced by those of `src`. -/
def memcpy (dst src : List Char) (n : Nat) : List Char :=
  src.take n ++ dst.drop n

/-- The libc `strcmp`: zero when the strings are equal, negative or positive according to the
first pair of characters that differ, the terminating NUL counting as the smallest character
(C fixes only the sign of a nonzero result). -/
def strcmp : CStr → CStr → Int
  | [], [] => 0
  | [], _ :: _ => -1
  | _ :: _, [] => 1
  | a :: as, b :: bs => if a = b then strcmp as bs else if a.toNat < b.toNat then -1 else 1

/-- One call of the libc `strtok` with the scan starting at `s` (the string itself on a first
call, the saved position on a call with a NULL first argument): leading delimiters are skipped,
the token runs up to the next delimiter, and the saved position is right after that delimiter
(or the end of the string). Returns the token (`none` for NULL) and the saved position. -/
def strtok (s : CStr) (delim : List Char) : Option CStr × CStr :=
  match s.dropWhile (fun c => delim.contains c) with
  | [] => (none, [])
  | c :: cs =>
    (some ((c :: cs).takeWhile (fun x => !delim.contains x)),
     ((c :: cs).dropWhile (fun x => !delim.contains x)).drop 1)

/-- The libc `strstr`: the part of `haystack` that starts at the first occurrence of `needle`,
or `none` (NULL) when there is no occurrence. -/
def strstr : CStr → CStr → Option CStr
  | [], needle => if needle.isPrefixOf [] then some [] else none
  | c :: cs, needle => if needle.isPrefixOf (c :: cs) then some (c :: cs) else strstr cs needle

/-! ## `game_base.h`: networking constants -/

/-- The value of `sizeof(uint32_t)`. -/
def sizeof_uint32_t : Nat := 4

/-- The macro `#define GAME_PACKET_HEADER_SIZE (1 + 1 + sizeof(uint32_t))`: the header that
follows the custom packet type byte. -/
def GAME_PACKET_HEADER_SIZE : Nat := 1 + 1 + sizeof_uint32_t

/-- The macro `#define GAME_MAX_PACKET_SIZE 1024`. -/
def GAME_MAX_PACKET_SIZE : Nat := 1024

/-- The macro `#define GAME_MAX_DATA_SIZE (GAME_MAX_PACKET_SIZE - GAME_PACKET_HEADER_SIZE - 1)`,
computed in `size_t` because of the `sizeof`. -/
def GAME_MAX_DATA_SIZE : Nat :=
  size_sub (size_sub GAME_MAX_PACKET_SIZE GAME_PACKET_HEADER_SIZE) 1

/-! ## `game_util.h`: directions -/

/-- The enumerator `NORTH = 0u`. -/
def NORTH : Int := 0
/-- The enumerator `SOUTH = 1`. -/
def SOUTH : Int := 1
/-- The enumerator `EAST = 3`. -/
def EAST : Int := 3
/-- The enumerator `WEST = 4`. -/
def WEST : Int := 4
/-- The enumerator `INVALID_DIRECTION = 5`. -/
def INVALID_DIRECTION : Int := 5

/-- Modelled from the spec: the macro `MAX`, which `game_util.h` uses without defining it, is
taken to be the usual `(((x) > (y)) ? (x) : (y))`; the spec only says that vertical movement
gets half the speed. -/
def MAX (x y : Int) : Int := if x > y then x else y

/-- The macro `#define GAME_UTIL_REAL_SPEED(dir, speed)`
`((((dir) == (NORTH)) || ((dir) == (SOUTH))) ? (MAX(1, ((speed) / 2))) : (speed))`;
the C division truncates toward zero. -/
def GAME_UTIL_REAL_SPEED (dir speed : Int) : Int :=
  if dir = NORTH ∨ dir = SOUTH then MAX 1 (Int.tdiv speed 2) else speed

/-- The macro `#define GAME_UTIL_DIRECTION_VALID(dir)((dir) < (INVALID_DIRECTION))`. -/
def GAME_UTIL_DIRECTION_VALID (dir : Int) : Bool := decide (dir < INVALID_DIRECTION)

/-! ## `name_lookup.c` -/

/-- The macro `#define NAMESERVER_API_PATH "api"`. -/
def NAMESERVER_API_PATH : CStr := ['a', 'p', 'i']
/-- The macro `#define SERVER_KEY_SIZE 32`. -/
def SERVER_KEY_SIZE : Nat := 32
/-- The macro `#define MAX_SERVERS 50`. -/
def MAX_SERVERS : Nat := 50
/-- The macro `#define MAX_DOMAIN_SIZE 32`. -/
def MAX_DOMAIN_SIZE : Nat := 32

/-- The `struct Nameservers`: `names` and `keys` are the arrays of `MAX_SERVERS` entries, read
with `getD` and written with `set`. -/
structure Nameservers where
  lines : Int
  names : List CStr
  keys : List (List Char)

/-- The statically (zero-) initialised `Nameservers`. -/
def Nameservers.empty : Nameservers :=
  ⟨0, List.replicate MAX_SERVERS [], List.replicate MAX_SERVERS (List.replicate SERVER_KEY_SIZE '\x00')⟩

/-- What `parse_addr` returns and leaves in its two output buffers. -/
structure ParseAddr where
  ret : Int
  namebuf : CStr
  dombuf : CStr
deriving DecidableEq

/-- The function `parse_addr` (name_lookup.c:156). `MAX_STR_SIZE` and `str_to_lower` are not
defined in the sources and are parameters; `tmpaddr` is the local copy of `addr`. -/
def parse_addr (MAX_STR_SIZE : Nat) (str_to_lower : CStr → CStr)
    (addr : CStr) (namebuf : CStr) (namebuf_sz : Nat) (dombuf : CStr) (dombuf_sz : Nat) :
    ParseAddr :=
  if strlen addr ≥ size_sub MAX_STR_SIZE (strlen NAMESERVER_API_PATH) then
    ⟨-1, namebuf, dombuf⟩
  else
    let tmpaddr := snprintf [] MAX_STR_SIZE addr
    let tok1 := strtok tmpaddr ['@']
    let tok2 := strtok tok1.2 []
    match tok1.1, tok2.1 with
    | some tmpname, some tmpdom =>
      ⟨0, snprintf namebuf namebuf_sz tmpname, snprintf dombuf dombuf_sz (str_to_lower tmpdom)⟩
    | _, _ => ⟨-1, namebuf, dombuf⟩

/-- What `get_domain_match` returns and leaves in its two output buffers. -/
structure DomainMatch where
  ret : Bool
  pubkey : List Char
  out_domain : CStr
deriving DecidableEq

/-- The text that the format `"https://%s/%s"` produces for a name and `NAMESERVER_API_PATH`. -/
def request_url (name : CStr) : CStr :=
  ['h', 't', 't', 'p', 's', ':', '/', '/'] ++ name ++ ['/'] ++ NAMESERVER_API_PATH

/-- The `for` loop of `get_domain_match` from index `i` on, with `steps` iterations left. -/
def get_domain_match_from (ns : Nameservers) (pubkey : List Char) (out_domain : CStr)
    (out_domain_size : Nat) (inputdomain : CStr) : Nat → Nat → DomainMatch
  | 0, _ => ⟨false, pubkey, out_domain⟩
  | steps + 1, i =>
    if strcmp (ns.names.getD i []) inputdomain = 0 then
      ⟨true, memcpy pubkey (ns.keys.getD i []) SERVER_KEY_SIZE,
        snprintf out_domain out_domain_size (request_url (ns.names.getD i []))⟩
    else
      get_domain_match_from ns pubkey out_domain out_domain_size inputdomain steps (i + 1)

/-- The function `get_domain_match` (name_lookup.c:187): `i` runs from 0 while
`i < Nameservers.lines`. -/
def get_domain_match (ns : Nameservers) (pubkey : List Char) (out_domain : CStr)
    (out_domain_size : Nat) (inputdomain : CStr) : DomainMatch :=
  get_domain_match_from ns pubkey out_domain out_domain_size inputdomain ns.lines.toNat 0

/-- The body of the `while` loop of `load_nameserver_list` for one line delivered by `fgets`.
`hex_string_to_bytes buf size keystr` (not defined in the sources) returns its result code and
the new contents of `buf`. -/
def load_nameserver_line (hex_string_to_bytes : List Char → Nat → CStr → Int × List Char)
    (ns : Nameservers) (line : CStr) : Nameservers :=
  if strlen line < SERVER_KEY_SIZE * 2 + 5 then ns
  else
    let line1 := if line.getLast? = some '\n' then line.dropLast else line
    let tok1 := strtok line1 [' ']
    let tok2 := strtok tok1.2 [' ']
    match tok1.1, tok2.1 with
    | some name, some keystr =>
      if strlen keystr ≠ SERVER_KEY_SIZE * 2 then ns
      else
        let idx := ns.lines.toNat
        let names1 := ns.names.set idx (snprintf (ns.names.getD idx []) MAX_DOMAIN_SIZE name)
        let res := hex_string_to_bytes (ns.keys.getD idx []) SERVER_KEY_SIZE keystr
        let keys1 := ns.keys.set idx res.2
        if res.1 = -1 then ⟨ns.lines, names1, keys1⟩
        else ⟨ns.lines + 1, names1, keys1⟩
    | _, _ => ns

/-- The `while (fgets(...) && Nameservers.lines < MAX_SERVERS)` loop; the stream is given by
the successive strings that `fgets` stores in `line`. -/
def load_nameserver_loop (hex_string_to_bytes : List Char → Nat → CStr → Int × List Char) :
    List CStr → Nameservers → Nameservers
  | [], ns => ns
  | line :: rest, ns =>
    if ns.lines < MAX_SERVERS then
      load_nameserver_loop hex_string_to_bytes rest (load_nameserver_line hex_string_to_bytes ns line)
    else ns

/-- The function `load_nameserver_list` (name_lookup.c:96). `fp` is `none` when `fopen` fails,
and otherwise the lines of the file as `fgets` delivers them. Returns the result code and the
new `Nameservers`. -/
def load_nameserver_list (hex_string_to_bytes : List Char → Nat → CStr → Int × List Char)
    (fp : Option (List CStr)) (ns : Nameservers) : Int × Nameservers :=
  match fp with
  | none => (-2, ns)
  | some stream =>
    let ns1 := load_nameserver_loop hex_string_to_bytes stream ns
    if ns1.lines < 1 then (-3, ns1) else (0, ns1)

/-- The `struct Recv_Curl_Data`: the received text as the C string that starts at `data`, and
the number of bytes received. -/
structure Recv_Curl_Data where
  data : CStr
  length : Nat

/-- The macro `ID_PREFIX`: the eleven characters `"tox_id": "`. -/
def ID_PREFIX : CStr := ['"', 't', 'o', 'x', '_', 'i', 'd', '"', ':', ' ', '"']

/-- The function `process_response` (name_lookup.c:208). `TOX_ADDRESS_SIZE` and
`tox_pk_string_to_bytes hex_string hex_len output output_size` (result code and new contents of
`output`) are not defined in the sources and are parameters; `id_bin` is `t_data.id_bin`.
Returns the result code and the new `t_data.id_bin`. -/
def process_response (TOX_ADDRESS_SIZE : Nat)
    (tox_pk_string_to_bytes : CStr → Nat → List Char → Nat → Int × List Char)
    (recv_data : Recv_Curl_Data) (id_bin : List Char) : Int × List Char :=
  let prefix_size := strlen ID_PREFIX
  if recv_data.length < TOX_ADDRESS_SIZE * 2 + prefix_size then (-1, id_bin)
  else
    match strstr recv_data.data ID_PREFIX with
    | none => (-1, id_bin)
    | some IDstart =>
      if strlen IDstart < TOX_ADDRESS_SIZE * 2 + prefix_size then (-1, id_bin)
      else
        let ID_string := (IDstart.drop prefix_size).take (TOX_ADDRESS_SIZE * 2)
        let res := tox_pk_string_to_bytes ID_string (strlen ID_string) id_bin TOX_ADDRESS_SIZE
        if res.1 = -1 then (-1, res.2) else (0, res.2)

/-! ## Predicates used to state the properties -/

/-- The name and key tokens of a line that passes every check `load_nameserver_list` makes
before it stores anything, and `none` for a line that one of these checks skips. -/
def entry_fields (line : CStr) : Option (CStr × CStr) :=
  if strlen line < SERVER_KEY_SIZE * 2 + 5 then none
  else
    let line1 := if line.getLast? = some '\n' then line.dropLast else line
    let tok1 := strtok line1 [' ']
    let tok2 := strtok tok1.2 [' ']
    match tok1.1, tok2.1 with
    | some name, some keystr =>
      if strlen keystr ≠ SERVER_KEY_SIZE * 2 then none else some (name, keystr)
    | _, _ => none

/-- A line on which the loop stores an entry: it passes the checks and the key converts,
whatever the key buffer held before. -/
def valid_entry (hex_string_to_bytes : List Char → Nat → CStr → Int × List Char)
    (line : CStr) : Prop :=
  ∃ name keystr, entry_fields line = some (name, keystr) ∧
    ∀ buf, (hex_string_to_bytes buf SERVER_KEY_SIZE keystr).1 ≠ -1

/-- A line on which the loop stores no entry: it fails a check or the key does not convert,
whatever the key buffer held before. -/
def skipped_entry (hex_string_to_bytes : List Char → Nat → CStr → Int × List Char)
    (line : CStr) : Prop :=
  ∀ name keystr, entry_fields line = some (name, keystr) →
    ∀ buf, (hex_string_to_bytes buf SERVER_KEY_SIZE keystr).1 = -1

/-- The string `hay` is `pre ++ needle ++ post`, and `needle` does not occur in `hay` at any
earlier position: `pre` is what comes before the first occurrence of `needle`, `post` what
comes after it. -/
def first_occurrence (needle hay pre post : CStr) : Prop :=
  hay = pre ++ needle ++ post ∧
    ∀ pre1 post1, hay = pre1 ++ needle ++ post1 → pre.length ≤ pre1.length

/-! ## Properties of the game constants and macros -/

/-- C1: the packet header is 6 bytes, the maximum packet 1024 bytes and the maximum payload
1017 bytes, and a payload of `n` bytes together with the transport type byte and the header
fits into the maximum packet exactly when `n` is at most the maximum payload. -/
theorem game_max_data_size_fits :
    GAME_PACKET_HEADER_SIZE = 6 ∧ GAME_MAX_PACKET_SIZE = 1024 ∧ GAME_MAX_DATA_SIZE = 1017 ∧
    ∀ n : Nat, 1 + GAME_PACKET_HEADER_SIZE + n ≤ GAME_MAX_PACKET_SIZE ↔ n ≤ GAME_MAX_DATA_SIZE := by
  have h1 : GAME_PACKET_HEADER_SIZE = 6 := by decide
  have h2 : GAME_MAX_PACKET_SIZE = 1024 := by decide
  have h3 : GAME_MAX_DATA_SIZE = 1017 := by
    simp [GAME_MAX_DATA_SIZE, size_sub, h1, h2]
  refine ⟨h1, h2, h3, fun n => ?_⟩
  rw [h1, h2, h3]
  omega

/-- C8: `GAME_UTIL_DIRECTION_VALID` is true for each of NORTH, SOUTH, EAST and WEST, and false
for `INVALID_DIRECTION` and for every value greater than it. -/
theorem direction_valid_excludes_sentinel :
    GAME_UTIL_DIRECTION_VALID NORTH = true ∧ GAME_UTIL_DIRECTION_VALID SOUTH = true ∧
    GAME_UTIL_DIRECTION_VALID EAST = true ∧ GAME_UTIL_DIRECTION_VALID WEST = true ∧
    GAME_UTIL_DIRECTION_VALID INVALID_DIRECTION = false ∧
    ∀ dir : Int, INVALID_DIRECTION < dir → GAME_UTIL_DIRECTION_VALID dir = false := by
  refine ⟨by decide, by decide, by decide, by decide, by decide, fun dir h => ?_⟩
  unfold GAME_UTIL_DIRECTION_VALID
  simp only [decide_eq_false_iff_not, not_lt]
  exact le_of_lt h

theorem direction_valid_excludes_sentinel_witness :
    INVALID_DIRECTION < 6 ∧ GAME_UTIL_DIRECTION_VALID 6 = false :=
  ⟨by decide, direction_valid_excludes_sentinel.2.2.2.2.2 6 (by decide)⟩

/-- C9: for a speed of at least 2, `GAME_UTIL_REAL_SPEED` gives `speed / 2` (integer division)
when the direction is NORTH or SOUTH, and for every speed and every other direction (EAST, WEST,
`INVALID_DIRECTION` among them) it gives the speed itself. -/
theorem real_speed_halves_vertical (dir speed : Int) :
    ((dir = NORTH ∨ dir = SOUTH) → 2 ≤ speed → GAME_UTIL_REAL_SPEED dir speed = speed / 2) ∧
    (dir ≠ NORTH → dir ≠ SOUTH → GAME_UTIL_REAL_SPEED dir speed = speed) := by
  constructor
  · intro hd hs
    unfold GAME_UTIL_REAL_SPEED
    rw [if_pos hd, Int.tdiv_eq_ediv (by omega) (by decide)]
    unfold MAX
    rw [if_neg (by omega)]
  · intro h1 h2
    unfold GAME_UTIL_REAL_SPEED
    rw [if_neg (by simp [h1, h2])]

theorem real_speed_halves_vertical_witness :
    GAME_UTIL_REAL_SPEED NORTH 7 = 7 / 2 ∧ GAME_UTIL_REAL_SPEED SOUTH 7 = 7 / 2 ∧
    GAME_UTIL_REAL_SPEED EAST 7 = 7 ∧ GAME_UTIL_REAL_SPEED WEST 7 = 7 ∧
    GAME_UTIL_REAL_SPEED INVALID_DIRECTION 7 = 7 :=
  ⟨(real_speed_halves_vertical NORTH 7).1 (Or.inl rfl) (by decide),
   (real_speed_halves_vertical SOUTH 7).1 (Or.inr rfl) (by decide),
   (real_speed_halves_vertical EAST 7).2 (by decide) (by decide),
   (real_speed_halves_vertical WEST 7).2 (by decide) (by decide),
   (real_speed_halves_vertical INVALID_DIRECTION 7).2 (by decide) (by decide)⟩

/-! ## Properties of `parse_addr` -/

/-- The saved position after a `strtok` call, whether or not a token was found. -/
theorem strtok_snd (s : CStr) (delim : List Char) :
    (strtok s delim).2 =
      ((s.dropWhile (fun c => delim.contains c)).dropWhile (fun x => !delim.contains x)).drop 1 := by
  unfold strtok
  split
  · next h => rw [h]; rfl
  · next c cs h => rw [h]

/-- With an empty delimiter set the token is the whole non-empty rest. -/
theorem strtok_empty_delim (c : Char) (cs : CStr) : (strtok (c :: cs) []).1 = some (c :: cs) := by
  simp [strtok]

/-- A non-empty run of non-delimiters followed by a delimiter: the run is the token and the
scan resumes right after the delimiter. -/
theorem strtok_split (delim : List Char) (u d : CStr) (c0 : Char) (hu : u ≠ [])
    (hnot : ∀ x ∈ u, x ∉ delim) (hc0 : c0 ∈ delim) :
    strtok (u ++ c0 :: d) delim = (some u, d) := by
  cases u with
  | nil => exact absurd rfl hu
  | cons c cs =>
    have hpos : ∀ a ∈ c :: cs, (fun x => !delim.contains x) a = true := by
      intro a ha; simpa using hnot a ha
    have hd : ((c :: cs) ++ c0 :: d).dropWhile (fun x => delim.contains x) = c :: (cs ++ c0 :: d) := by
      rw [List.cons_append, List.dropWhile_cons_of_neg]
      simpa using hnot c (by simp)
    have ht : (c :: (cs ++ c0 :: d)).takeWhile (fun x => !delim.contains x) = c :: cs := by
      have := @List.takeWhile_append_of_pos Char (fun x => !delim.contains x) (c :: cs) (c0 :: d) hpos
      rw [List.cons_append] at this
      rw [this, List.takeWhile_cons_of_neg (by simpa using hc0)]
      simp
    have hr : (c :: (cs ++ c0 :: d)).dropWhile (fun x => !delim.contains x) = c0 :: d := by
      have := @List.dropWhile_append_of_pos Char (fun x => !delim.contains x) (c :: cs) (c0 :: d) hpos
      rw [List.cons_append] at this
      rw [this, List.dropWhile_cons_of_neg (by simpa using hc0)]
    unfold strtok
    rw [hd]
    simp only [ht, hr]
    rfl

/-- Nothing is left to scan after tokenising a string without delimiters. -/
theorem strtok_no_rest_of_all_not (delim : List Char) (t : CStr)
    (hnot : ∀ x ∈ t, x ∉ delim) : (strtok t delim).2 = [] := by
  rw [strtok_snd]
  have h2 : (t.dropWhile (fun c => delim.contains c)).dropWhile (fun x => !delim.contains x) = [] := by
    rw [List.dropWhile_eq_nil_iff]
    intro x hx
    simpa using hnot x (List.dropWhile_subset _ hx)
  rw [h2]
  rfl

/-- Nothing is left to scan when the only delimiter is the last character. -/
theorem strtok_no_rest_of_trailing (delim : List Char) (u : CStr) (c0 : Char)
    (hnot : ∀ x ∈ u, x ∉ delim) (hc0 : c0 ∈ delim) :
    (strtok (u ++ [c0]) delim).2 = [] := by
  cases u with
  | nil =>
    rw [strtok_snd, List.nil_append, List.dropWhile_cons_of_pos (by simpa using hc0)]
    rfl
  | cons c cs => rw [strtok_split delim (c :: cs) [] c0 (by simp) hnot hc0]

/-- A string without `@` has no character from the delimiter set `"@"`. -/
theorem not_mem_at (t : CStr) (h : '@' ∉ t) : ∀ x ∈ t, x ∉ ['@'] := by
  intro x hx hm
  simp at hm
  exact h (hm ▸ hx)

/-- Nothing is left to scan after tokenising a string of at most one character. -/
theorem strtok_at_no_rest_of_short (t : CStr) (h : t.length ≤ 1) : (strtok t ['@']).2 = [] := by
  match t, h with
  | [], _ => rfl
  | [c], _ =>
    by_cases hc : c = '@'
    · subst hc; rfl
    · apply strtok_no_rest_of_all_not
      intro x hx
      simp at hx
      subst hx
      simpa using hc

/-- When the first `strtok` leaves nothing to scan, `tmpdom` is NULL and `parse_addr` fails. -/
theorem parse_addr_of_no_rest (M : Nat) (lower : CStr → CStr) (addr namebuf : CStr) (nsz : Nat)
    (dombuf : CStr) (dsz : Nat) (h : (strtok (snprintf [] M addr) ['@']).2 = []) :
    (parse_addr M lower addr namebuf nsz dombuf dsz).ret = -1 := by
  unfold parse_addr
  split
  · rfl
  · simp only [h]
    have h0 : (strtok [] []).1 = none := rfl
    rw [h0]
    split
    · next h1 h2 => simp at h2
    · rfl

/-- The call `snprintf` copies a string whole when the buffer is larger than it. -/
theorem snprintf_of_lt (buf s : CStr) (size : Nat) (h : s.length < size) :
    snprintf buf size s = s := by
  unfold snprintf
  rw [if_neg (by omega)]
  exact List.take_of_length_le (by omega)

/-- C2: for an address `u ++ "@" ++ d` with `u` non-empty and free of `@`, `d` non-empty
(and free to contain `@`), of length below `MAX_STR_SIZE - 3`, and with both output buffers
larger than the part they receive, `parse_addr` returns 0, stores `u` unchanged in `namebuf`
and stores the lower-cased `d` in `dombuf`. -/
theorem parse_addr_splits_at_first_at (MAX_STR_SIZE : Nat) (str_to_lower : CStr → CStr)
    (u d namebuf dombuf : CStr) (namebuf_sz dombuf_sz : Nat)
    (hu : u ≠ []) (hat : '@' ∉ u) (hd : d ≠ [])
    (hM : MAX_STR_SIZE < 2 ^ 64)
    (hlen : strlen (u ++ '@' :: d) < MAX_STR_SIZE - 3)
    (hname : strlen u < namebuf_sz) (hdom : strlen (str_to_lower d) < dombuf_sz) :
    parse_addr MAX_STR_SIZE str_to_lower (u ++ '@' :: d) namebuf namebuf_sz dombuf dombuf_sz
      = ⟨0, u, str_to_lower d⟩ := by
  unfold strlen at hlen hname hdom
  have hsub : size_sub MAX_STR_SIZE (strlen NAMESERVER_API_PATH) = MAX_STR_SIZE - 3 := by
    have : strlen NAMESERVER_API_PATH = 3 := rfl
    rw [this]
    unfold size_sub
    omega
  have hcopy : snprintf [] MAX_STR_SIZE (u ++ '@' :: d) = u ++ '@' :: d :=
    snprintf_of_lt _ _ _ (by omega)
  obtain ⟨c, cs, rfl⟩ := List.exists_cons_of_ne_nil hd
  unfold parse_addr
  rw [if_neg (by rw [hsub]; unfold strlen; omega), hcopy]
  simp only [strtok_split ['@'] u (c :: cs) '@' hu (not_mem_at u hat) (by simp),
    strtok_empty_delim]
  rw [snprintf_of_lt _ _ _ hname, snprintf_of_lt _ _ _ hdom]

theorem parse_addr_splits_at_first_at_witness :
    parse_addr 1372 (fun s => s.map Char.toLower) ("user" ++ "@" ++ "Tox.Example@x").toList
        [] 1372 [] 1372
      = ⟨0, "user".toList, "tox.example@x".toList⟩ :=
  parse_addr_splits_at_first_at 1372 (fun s => s.map Char.toLower) "user".toList
    "Tox.Example@x".toList [] [] 1372 1372 (by decide) (by decide) (by decide) (by decide)
    (by decide) (by decide) (by decide)

/-- The local copy `tmpaddr` holds only characters of `addr`. -/
theorem snprintf_tmp_subset (M : Nat) (addr : CStr) : ∀ x ∈ snprintf [] M addr, x ∈ addr := by
  intro x hx
  unfold snprintf at hx
  split at hx
  · simp at hx
  · exact List.take_subset _ _ hx

/-- The local copy `tmpaddr` holds at most `MAX_STR_SIZE - 1` characters. -/
theorem snprintf_tmp_length (M : Nat) (addr : CStr) : (snprintf [] M addr).length ≤ M - 1 := by
  unfold snprintf
  split
  · simp
  · simp [List.length_take]

/-- C3: `parse_addr` returns -1 for an address that is empty, that contains no `@`, that ends
in its only `@` (such as `user@`), or whose length is at least
`MAX_STR_SIZE - strlen("api")`. -/
theorem parse_addr_rejects_malformed (MAX_STR_SIZE : Nat) (str_to_lower : CStr → CStr)
    (addr namebuf dombuf : CStr) (namebuf_sz dombuf_sz : Nat)
    (h : addr = [] ∨ '@' ∉ addr ∨ (∃ u, '@' ∉ u ∧ addr = u ++ ['@']) ∨
      MAX_STR_SIZE - strlen NAMESERVER_API_PATH ≤ strlen addr) :
    (parse_addr MAX_STR_SIZE str_to_lower addr namebuf namebuf_sz dombuf dombuf_sz).ret = -1 := by
  have hnone : '@' ∉ addr →
      (parse_addr MAX_STR_SIZE str_to_lower addr namebuf namebuf_sz dombuf dombuf_sz).ret = -1 := by
    intro hat
    apply parse_addr_of_no_rest
    apply strtok_no_rest_of_all_not
    exact not_mem_at _ (fun hm => hat (snprintf_tmp_subset _ _ _ hm))
  rcases h with h | h | ⟨u, hu, rfl⟩ | h
  · exact hnone (by simp [h])
  · exact hnone h
  · apply parse_addr_of_no_rest
    unfold snprintf
    split
    · rfl
    · by_cases hk : (u ++ ['@']).length ≤ MAX_STR_SIZE - 1
      · rw [List.take_of_length_le hk]
        exact strtok_no_rest_of_trailing ['@'] u '@' (not_mem_at u hu) (by simp)
      · have hle : MAX_STR_SIZE - 1 ≤ u.length := by
          simp only [List.length_append, List.length_singleton] at hk
          omega
        rw [List.take_append_of_le_length hle]
        apply strtok_no_rest_of_all_not
        exact not_mem_at _ (fun hm => hu (List.take_subset _ _ hm))
  · have h3 : strlen NAMESERVER_API_PATH = 3 := rfl
    rw [h3] at h
    by_cases hM : 3 ≤ MAX_STR_SIZE
    · unfold parse_addr
      rw [if_pos]
      rw [h3]
      unfold size_sub
      show (MAX_STR_SIZE + 2 ^ 64 - 3) % 2 ^ 64 ≤ strlen addr
      omega
    · apply parse_addr_of_no_rest
      apply strtok_at_no_rest_of_short
      have := snprintf_tmp_length MAX_STR_SIZE addr
      omega

theorem parse_addr_rejects_malformed_witness :
    (parse_addr 1372 (fun s => s.map Char.toLower) "user@".toList [] 1372 [] 1372).ret = -1 :=
  parse_addr_rejects_malformed 1372 (fun s => s.map Char.toLower) "user@".toList [] [] 1372 1372
    (Or.inr (Or.inr (Or.inl ⟨"user".toList, by decide, by decide⟩)))

/-! ## Properties of `get_domain_match` -/

/-- The result of `strcmp` is zero exactly for equal strings. -/
theorem strcmp_eq_zero_iff (a b : CStr) : strcmp a b = 0 ↔ a = b := by
  induction a generalizing b with
  | nil => cases b <;> simp [strcmp]
  | cons x xs ih =>
    cases b with
    | nil => simp [strcmp]
    | cons y ys =>
      unfold strcmp
      by_cases hxy : x = y
      · simp [hxy, ih]
      · rw [if_neg hxy]
        constructor
        · intro h; split at h <;> simp at h
        · intro h; exact absurd (List.cons.inj h).1 hxy

/-- The loop from index `i` either finds no match among the next `steps` names and changes
nothing, or stops at the first match, copies its key and formats its URL. -/
theorem get_domain_match_from_spec (ns : Nameservers) (pubkey : List Char) (out_domain : CStr)
    (out_domain_size : Nat) (inputdomain : CStr) (steps i : Nat) :
    ((∀ j, i ≤ j → j < i + steps → ns.names.getD j [] ≠ inputdomain) ∧
      get_domain_match_from ns pubkey out_domain out_domain_size inputdomain steps i
        = ⟨false, pubkey, out_domain⟩) ∨
    (∃ j, i ≤ j ∧ j < i + steps ∧ ns.names.getD j [] = inputdomain ∧
      (∀ k, i ≤ k → k < j → ns.names.getD k [] ≠ inputdomain) ∧
      get_domain_match_from ns pubkey out_domain out_domain_size inputdomain steps i
        = ⟨true, memcpy pubkey (ns.keys.getD j []) SERVER_KEY_SIZE,
            snprintf out_domain out_domain_size (request_url (ns.names.getD j []))⟩) := by
  induction steps generalizing i with
  | zero =>
    left
    exact ⟨fun j h1 h2 => by omega, rfl⟩
  | succ n ih =>
    unfold get_domain_match_from
    by_cases hi : strcmp (ns.names.getD i []) inputdomain = 0
    · right
      rw [if_pos hi]
      exact ⟨i, le_refl i, by omega, (strcmp_eq_zero_iff _ _).1 hi, fun k h1 h2 => by omega, rfl⟩
    · rw [if_neg hi]
      have hne : ns.names.getD i [] ≠ inputdomain := fun e => hi ((strcmp_eq_zero_iff _ _).2 e)
      rcases ih (i + 1) with ⟨hall, heq⟩ | ⟨j, h1, h2, h3, h4, heq⟩
      · left
        refine ⟨fun j h1 h2 => ?_, heq⟩
        by_cases hj : j = i
        · rw [hj]; exact hne
        · exact hall j (by omega) (by omega)
      · right
        refine ⟨j, by omega, by omega, h3, fun k hk1 hk2 => ?_, heq⟩
        by_cases hk : k = i
        · rw [hk]; exact hne
        · exact h4 k (by omega) hk2

/-- C4: `get_domain_match` returns true exactly when `inputdomain` equals, character for
character, one of the first `Nameservers.lines` names; when it returns true `pubkey` has
received the `SERVER_KEY_SIZE` key chars of the matching entry of smallest index, and when it
returns false `pubkey` and `out_domain` are as they were. -/
theorem get_domain_match_first_exact_match (ns : Nameservers) (pubkey : List Char)
    (out_domain : CStr) (out_domain_size : Nat) (inputdomain : CStr) :
    ((get_domain_match ns pubkey out_domain out_domain_size inputdomain).ret = true ↔
      ∃ j : Nat, (j : Int) < ns.lines ∧ ns.names.getD j [] = inputdomain) ∧
    ((get_domain_match ns pubkey out_domain out_domain_size inputdomain).ret = true →
      ∃ j : Nat, (j : Int) < ns.lines ∧ ns.names.getD j [] = inputdomain ∧
        (∀ k, k < j → ns.names.getD k [] ≠ inputdomain) ∧
        (get_domain_match ns pubkey out_domain out_domain_size inputdomain).pubkey
          = memcpy pubkey (ns.keys.getD j []) SERVER_KEY_SIZE) ∧
    ((get_domain_match ns pubkey out_domain out_domain_size inputdomain).ret = false →
      (get_domain_match ns pubkey out_domain out_domain_size inputdomain).pubkey = pubkey ∧
      (get_domain_match ns pubkey out_domain out_domain_size inputdomain).out_domain
        = out_domain) := by
  unfold get_domain_match
  have hlines : ∀ j : Nat, (j : Int) < ns.lines ↔ j < 0 + ns.lines.toNat := by
    intro j; omega
  rcases get_domain_match_from_spec ns pubkey out_domain out_domain_size inputdomain
      ns.lines.toNat 0 with ⟨hall, heq⟩ | ⟨j, h1, h2, h3, h4, heq⟩
  · rw [heq]
    refine ⟨⟨fun h => by simp at h, fun ⟨j, hj, hn⟩ => ?_⟩, fun h => by simp at h,
      fun _ => ⟨rfl, rfl⟩⟩
    exact absurd hn (hall j (Nat.zero_le j) ((hlines j).1 hj))
  · rw [heq]
    refine ⟨⟨fun _ => ⟨j, (hlines j).2 h2, h3⟩, fun _ => rfl⟩,
      fun _ => ⟨j, (hlines j).2 h2, h3, fun k hk => h4 k (Nat.zero_le k) hk, rfl⟩,
      fun h => by simp at h⟩

theorem get_domain_match_first_exact_match_witness :
    ∃ j : Nat, (j : Int) < 3 ∧
      ["a.example".toList, "tox.example".toList, "tox.example".toList].getD j []
        = "tox.example".toList ∧
      (∀ k, k < j →
        ["a.example".toList, "tox.example".toList, "tox.example".toList].getD k []
          ≠ "tox.example".toList) ∧
      (get_domain_match
          ⟨3, ["a.example".toList, "tox.example".toList, "tox.example".toList],
            [List.replicate 32 'a', List.replicate 32 'b', List.replicate 32 'c']⟩
          (List.replicate 32 'x') [] 32 "tox.example".toList).pubkey
        = memcpy (List.replicate 32 'x')
            ([List.replicate 32 'a', List.replicate 32 'b', List.replicate 32 'c'].getD j [])
            SERVER_KEY_SIZE :=
  (get_domain_match_first_exact_match
    ⟨3, ["a.example".toList, "tox.example".toList, "tox.example".toList],
      [List.replicate 32 'a', List.replicate 32 'b', List.replicate 32 'c']⟩
    (List.replicate 32 'x') [] 32 "tox.example".toList).2.1 (by decide)

/-- A name of at most 19 characters: the 32-char buffer of the lookup thread holds the whole
request URL. -/
theorem snprintf_request_url_of_short (buf name : CStr) (h : strlen name ≤ 19) :
    snprintf buf MAX_DOMAIN_SIZE (request_url name) = request_url name := by
  apply snprintf_of_lt
  unfold strlen at h
  simp only [request_url, NAMESERVER_API_PATH, MAX_DOMAIN_SIZE, List.length_append,
    List.length_cons, List.length_nil]
  omega

/-- C5: the code at a nameserver name of 20 characters, called as the lookup thread calls it
(`out_domain_size = MAX_DOMAIN_SIZE`): the match is found, and `out_domain` holds the 31
characters `https://abcdefghijklmnop.com/ap`, not the full request URL
`https://abcdefghijklmnop.com/api`. -/
theorem get_domain_match_truncates_request_url :
    get_domain_match
        ⟨1, "abcdefghijklmnop.com".toList :: List.replicate 49 [],
          List.replicate MAX_SERVERS (List.replicate SERVER_KEY_SIZE 'k')⟩
        (List.replicate SERVER_KEY_SIZE '\x00') [] MAX_DOMAIN_SIZE "abcdefghijklmnop.com".toList
      = ⟨true, List.replicate SERVER_KEY_SIZE 'k', "https://abcdefghijklmnop.com/ap".toList⟩ ∧
    request_url "abcdefghijklmnop.com".toList = "https://abcdefghijklmnop.com/api".toList ∧
    strlen "abcdefghijklmnop.com".toList = 20 := by
  decide

/-! ## Properties of `load_nameserver_list` -/

/-- The entry count after one loop body: unchanged when a check skips the line or the key
does not convert, one more otherwise. -/
theorem load_nameserver_line_lines (hex : List Char → Nat → CStr → Int × List Char)
    (ns : Nameservers) (line : CStr) :
    (load_nameserver_line hex ns line).lines =
      match entry_fields line with
      | none => ns.lines
      | some (_, keystr) =>
        if (hex (ns.keys.getD ns.lines.toNat []) SERVER_KEY_SIZE keystr).1 = -1 then ns.lines
        else ns.lines + 1 := by
  unfold load_nameserver_line entry_fields
  by_cases hlen : strlen line < SERVER_KEY_SIZE * 2 + 5
  · simp only [if_pos hlen]
  · simp only [if_neg hlen]
    generalize (strtok (if line.getLast? = some '\n' then line.dropLast else line) [' ']) = t1
    generalize (strtok t1.2 [' ']).1 = k
    cases t1.1 with
    | none => rfl
    | some name =>
      cases k with
      | none => rfl
      | some keystr =>
        by_cases hk : strlen keystr ≠ SERVER_KEY_SIZE * 2
        · simp only [if_pos hk]
        · simp only [if_neg hk]
          by_cases hr : (hex (ns.keys.getD ns.lines.toNat []) SERVER_KEY_SIZE keystr).1 = -1
          · simp only [if_pos hr]
          · simp only [if_neg hr]

/-- One loop body never lowers the entry count. -/
theorem load_nameserver_line_mono (hex : List Char → Nat → CStr → Int × List Char)
    (ns : Nameservers) (line : CStr) : ns.lines ≤ (load_nameserver_line hex ns line).lines := by
  rw [load_nameserver_line_lines]
  split
  · exact le_refl _
  · split
    · exact le_refl _
    · exact Int.le_add_one (le_refl _)

/-- The loop never lowers the entry count. -/
theorem load_nameserver_loop_mono (hex : List Char → Nat → CStr → Int × List Char)
    (stream : List CStr) (ns : Nameservers) :
    ns.lines ≤ (load_nameserver_loop hex stream ns).lines := by
  induction stream generalizing ns with
  | nil => exact le_refl _
  | cons line rest ih =>
    unfold load_nameserver_loop
    split
    · exact le_trans (load_nameserver_line_mono hex ns line) (ih _)
    · exact le_refl _

/-- A stream of skipped lines leaves the entry count as it was. -/
theorem load_nameserver_loop_skipped (hex : List Char → Nat → CStr → Int × List Char)
    (stream : List CStr) (ns : Nameservers) (h : ∀ l ∈ stream, skipped_entry hex l) :
    (load_nameserver_loop hex stream ns).lines = ns.lines := by
  induction stream generalizing ns with
  | nil => rfl
  | cons line rest ih =>
    unfold load_nameserver_loop
    split
    · rw [ih _ (fun l hl => h l (List.mem_cons_of_mem _ hl)), load_nameserver_line_lines]
      have hs := h line (List.mem_cons_self _ _)
      split
      · rfl
      · next name keystr hf => rw [if_pos (hs name keystr hf _)]
    · rfl

/-- A stream with a valid entry ends with at least one entry stored. -/
theorem load_nameserver_loop_valid (hex : List Char → Nat → CStr → Int × List Char)
    (stream : List CStr) (ns : Nameservers) (h0 : 0 ≤ ns.lines)
    (h : ∃ l ∈ stream, valid_entry hex l) :
    1 ≤ (load_nameserver_loop hex stream ns).lines := by
  induction stream generalizing ns with
  | nil => obtain ⟨l, hl, _⟩ := h; simp at hl
  | cons line rest ih =>
    unfold load_nameserver_loop
    split
    · obtain ⟨l, hl, hv⟩ := h
      rcases List.mem_cons.1 hl with rfl | hl
      · refine le_trans ?_ (load_nameserver_loop_mono hex rest _)
        rw [load_nameserver_line_lines]
        obtain ⟨name, keystr, hf, hacc⟩ := hv
        rw [hf]
        simp only [if_neg (hacc _)]
        exact Int.add_le_add_right h0 1
      · exact ih _ (le_trans h0 (load_nameserver_line_mono hex ns line)) ⟨l, hl, hv⟩
    · next hfull =>
      have h50 : ((MAX_SERVERS : Nat) : Int) = 50 := rfl
      rw [h50] at hfull
      omega

/-- C6: starting from a list without entries, `load_nameserver_list` returns -2 when the file
cannot be opened, -3 when it opens and every line is skipped, 0 when some line is a valid
entry (0 exactly when an entry was stored), and never a value other than -2, -3 and 0, so
never -1. -/
theorem load_nameserver_list_result_codes
    (hex_string_to_bytes : List Char → Nat → CStr → Int × List Char)
    (fp : Option (List CStr)) (ns : Nameservers) (hempty : ns.lines = 0) :
    (fp = none → (load_nameserver_list hex_string_to_bytes fp ns).1 = -2) ∧
    (∀ stream, fp = some stream → (∀ l ∈ stream, skipped_entry hex_string_to_bytes l) →
      (load_nameserver_list hex_string_to_bytes fp ns).1 = -3) ∧
    (∀ stream, fp = some stream → (∃ l ∈ stream, valid_entry hex_string_to_bytes l) →
      (load_nameserver_list hex_string_to_bytes fp ns).1 = 0) ∧
    (∀ stream, fp = some stream →
      ((load_nameserver_list hex_string_to_bytes fp ns).1 = 0 ↔
        1 ≤ (load_nameserver_list hex_string_to_bytes fp ns).2.lines)) ∧
    ((load_nameserver_list hex_string_to_bytes fp ns).1 = -2 ∨
      (load_nameserver_list hex_string_to_bytes fp ns).1 = -3 ∨
      (load_nameserver_list hex_string_to_bytes fp ns).1 = 0) ∧
    (load_nameserver_list hex_string_to_bytes fp ns).1 ≠ -1 := by
  have hcodes : (load_nameserver_list hex_string_to_bytes fp ns).1 = -2 ∨
      (load_nameserver_list hex_string_to_bytes fp ns).1 = -3 ∨
      (load_nameserver_list hex_string_to_bytes fp ns).1 = 0 := by
    unfold load_nameserver_list
    cases fp with
    | none => left; rfl
    | some stream =>
      simp only []
      split
      · right; left; rfl
      · right; right; rfl
  refine ⟨?_, ?_, ?_, ?_, hcodes, ?_⟩
  rotate_right
  · rcases hcodes with h | h | h <;> rw [h] <;> decide
  · rintro rfl; rfl
  · rintro stream rfl hall
    unfold load_nameserver_list
    simp only []
    rw [if_pos]
    rw [load_nameserver_loop_skipped _ _ _ hall, hempty]
    decide
  · rintro stream rfl hex1
    unfold load_nameserver_list
    simp only []
    rw [if_neg]
    have := load_nameserver_loop_valid hex_string_to_bytes stream ns (by omega) hex1
    omega
  · rintro stream rfl
    unfold load_nameserver_list
    simp only []
    split
    · next hlt =>
      constructor
      · intro h; simp at h
      · intro h; exact absurd h (by simp only []; omega)
    · next hge =>
      constructor
      · intro _; simp only []; omega
      · intro _; rfl

theorem load_nameserver_list_result_codes_witness :
    (load_nameserver_list (fun buf _ _ => (0, buf)) none Nameservers.empty).1 = -2 ∧
    (load_nameserver_list (fun buf _ _ => (0, buf)) (some ["# no servers\n".toList])
      Nameservers.empty).1 = -3 ∧
    (load_nameserver_list (fun buf _ _ => (0, buf))
      (some ["tox.example 0123456789ABCDEF0123456789ABCDEF0123456789ABCDEF0123456789ABCDEF\n".toList])
      Nameservers.empty).1 = 0 :=
  ⟨(load_nameserver_list_result_codes (fun buf _ _ => (0, buf)) none Nameservers.empty rfl).1 rfl,
   (load_nameserver_list_result_codes (fun buf _ _ => (0, buf))
      (some ["# no servers\n".toList]) Nameservers.empty rfl).2.1 _ rfl
      (fun l hl name keystr hf => by
        have hnone : entry_fields "# no servers\n".toList = none := by decide
        rw [List.mem_singleton.1 hl, hnone] at hf
        exact Option.noConfusion hf),
   (load_nameserver_list_result_codes (fun buf _ _ => (0, buf))
      (some ["tox.example 0123456789ABCDEF0123456789ABCDEF0123456789ABCDEF0123456789ABCDEF\n".toList])
      Nameservers.empty rfl).2.2.1 _ rfl
      ⟨_, List.mem_singleton.2 rfl, "tox.example".toList,
        "0123456789ABCDEF0123456789ABCDEF0123456789ABCDEF0123456789ABCDEF".toList,
        by decide, fun _ => by simp⟩⟩

/-- A list file whose only line names a 20-character domain: when the key converts, the
file loads with result 0 and the 20-character name is stored as entry 0. -/
theorem load_nameserver_list_stores_long_name
    (hex : List Char → Nat → CStr → Int × List Char)
    (h : (hex (List.replicate SERVER_KEY_SIZE '\x00') SERVER_KEY_SIZE
      "0123456789ABCDEF0123456789ABCDEF0123456789ABCDEF0123456789ABCDEF".toList).1 ≠ -1) :
    (load_nameserver_list hex
      (some ["abcdefghijklmnop.com 0123456789ABCDEF0123456789ABCDEF0123456789ABCDEF0123456789ABCDEF\n".toList])
      Nameservers.empty).1 = 0 ∧
    (load_nameserver_list hex
      (some ["abcdefghijklmnop.com 0123456789ABCDEF0123456789ABCDEF0123456789ABCDEF0123456789ABCDEF\n".toList])
      Nameservers.empty).2.lines = 1 ∧
    (load_nameserver_list hex
      (some ["abcdefghijklmnop.com 0123456789ABCDEF0123456789ABCDEF0123456789ABCDEF0123456789ABCDEF\n".toList])
      Nameservers.empty).2.names.getD 0 [] = "abcdefghijklmnop.com".toList := by
  have hlen : ¬ strlen "abcdefghijklmnop.com 0123456789ABCDEF0123456789ABCDEF0123456789ABCDEF0123456789ABCDEF\n".toList
      < SERVER_KEY_SIZE * 2 + 5 := by decide
  have hline : (if "abcdefghijklmnop.com 0123456789ABCDEF0123456789ABCDEF0123456789ABCDEF0123456789ABCDEF\n".toList.getLast? = some '\n'
      then "abcdefghijklmnop.com 0123456789ABCDEF0123456789ABCDEF0123456789ABCDEF0123456789ABCDEF\n".toList.dropLast
      else "abcdefghijklmnop.com 0123456789ABCDEF0123456789ABCDEF0123456789ABCDEF0123456789ABCDEF\n".toList)
      = "abcdefghijklmnop.com 0123456789ABCDEF0123456789ABCDEF0123456789ABCDEF0123456789ABCDEF".toList := by
    decide
  have ht1 : strtok "abcdefghijklmnop.com 0123456789ABCDEF0123456789ABCDEF0123456789ABCDEF0123456789ABCDEF".toList [' ']
      = (some "abcdefghijklmnop.com".toList,
          "0123456789ABCDEF0123456789ABCDEF0123456789ABCDEF0123456789ABCDEF".toList) := by decide
  have ht2 : strtok "0123456789ABCDEF0123456789ABCDEF0123456789ABCDEF0123456789ABCDEF".toList [' ']
      = (some "0123456789ABCDEF0123456789ABCDEF0123456789ABCDEF0123456789ABCDEF".toList, []) := by
    decide
  have hk : ¬ strlen "0123456789ABCDEF0123456789ABCDEF0123456789ABCDEF0123456789ABCDEF".toList
      ≠ SERVER_KEY_SIZE * 2 := by decide
  have hbuf : Nameservers.empty.keys.getD Nameservers.empty.lines.toNat []
      = List.replicate SERVER_KEY_SIZE '\x00' := by decide
  have hlt : Nameservers.empty.lines < (MAX_SERVERS : Int) := by decide
  have hstep : (load_nameserver_line hex Nameservers.empty
      "abcdefghijklmnop.com 0123456789ABCDEF0123456789ABCDEF0123456789ABCDEF0123456789ABCDEF\n".toList).lines = 1 ∧
      (load_nameserver_line hex Nameservers.empty
      "abcdefghijklmnop.com 0123456789ABCDEF0123456789ABCDEF0123456789ABCDEF0123456789ABCDEF\n".toList).names.getD 0 []
        = "abcdefghijklmnop.com".toList := by
    unfold load_nameserver_line
    simp only [if_neg hlen, hline, ht1, ht2, if_neg hk, hbuf, if_neg h]
    exact ⟨by decide, by decide⟩
  unfold load_nameserver_list
  simp only [load_nameserver_loop, if_pos hlt]
  rw [if_neg (by rw [hstep.1]; decide)]
  exact ⟨rfl, hstep.1, hstep.2⟩

/-! ## Properties of `process_response` -/

/-- The test `isPrefixOf` as a decomposition of the longer string. -/
theorem isPrefixOf_iff (needle hay : CStr) :
    needle.isPrefixOf hay = true ↔ ∃ post, hay = needle ++ post := by
  rw [List.isPrefixOf_iff_prefix]
  constructor
  · rintro ⟨t, ht⟩; exact ⟨t, ht.symm⟩
  · rintro ⟨t, ht⟩; exact ⟨t, ht.symm⟩

/-- One unfolding of `strstr`, uniform in the haystack. -/
theorem strstr_eq_if (hay needle : CStr) :
    strstr hay needle =
      if needle.isPrefixOf hay then some hay
      else match hay with
        | [] => none
        | _ :: cs => strstr cs needle := by
  cases hay with
  | nil => simp [strstr]
  | cons c cs => simp [strstr]

/-- The result of `strstr` starts at the first occurrence of the needle. -/
theorem strstr_of_first_occurrence (needle hay pre post : CStr)
    (h : first_occurrence needle hay pre post) : strstr hay needle = some (needle ++ post) := by
  induction pre generalizing hay with
  | nil =>
    obtain ⟨h1, _⟩ := h
    rw [strstr_eq_if, if_pos ((isPrefixOf_iff _ _).2 ⟨post, by simpa using h1⟩)]
    simp [h1]
  | cons c p ih =>
    obtain ⟨h1, h2⟩ := h
    have hnp : ¬ needle.isPrefixOf hay = true := by
      intro hp
      obtain ⟨post1, hp1⟩ := (isPrefixOf_iff _ _).1 hp
      have := h2 [] post1 (by simpa using hp1)
      simp at this
    rw [strstr_eq_if, if_neg hnp, h1]
    simp only [List.cons_append]
    apply ih
    refine ⟨by simp, fun pre1 post1 he => ?_⟩
    have := h2 (c :: pre1) post1 (by rw [h1]; simp at he ⊢; exact he)
    simpa using this

/-- When `strstr` returns NULL the needle does not occur. -/
theorem strstr_none (needle hay : CStr) (h : strstr hay needle = none) :
    ∀ pre post, hay ≠ pre ++ needle ++ post := by
  induction hay with
  | nil =>
    intro pre post he
    rw [strstr_eq_if] at h
    have hp : needle.isPrefixOf [] = true := by
      apply (isPrefixOf_iff _ _).2
      have h3 : pre ++ needle ++ post = [] := he.symm
      simp at h3
      exact ⟨[], by simp [h3.2.1]⟩
    rw [if_pos hp] at h
    simp at h
  | cons c cs ih =>
    intro pre post he
    rw [strstr_eq_if] at h
    by_cases hp : needle.isPrefixOf (c :: cs) = true
    · rw [if_pos hp] at h; simp at h
    · rw [if_neg hp] at h
      simp only [] at h
      cases pre with
      | nil => exact hp ((isPrefixOf_iff _ _).2 ⟨post, by simpa using he⟩)
      | cons x xs =>
        simp only [List.cons_append, List.cons.injEq] at he
        exact ih h xs post (by simpa using he.2)

/-- When `strstr` returns a position, it is that of the first occurrence of the needle. -/
theorem strstr_some (needle hay s : CStr) (h : strstr hay needle = some s) :
    ∃ pre post, first_occurrence needle hay pre post ∧ s = needle ++ post := by
  induction hay with
  | nil =>
    rw [strstr_eq_if] at h
    by_cases hp : needle.isPrefixOf [] = true
    · rw [if_pos hp] at h
      obtain ⟨post, hpost⟩ := (isPrefixOf_iff _ _).1 hp
      refine ⟨[], post, ⟨by simpa using hpost, fun _ _ _ => Nat.zero_le _⟩, ?_⟩
      rw [← hpost]; exact (Option.some.inj h).symm
    · rw [if_neg hp] at h; simp at h
  | cons c cs ih =>
    rw [strstr_eq_if] at h
    by_cases hp : needle.isPrefixOf (c :: cs) = true
    · rw [if_pos hp] at h
      obtain ⟨post, hpost⟩ := (isPrefixOf_iff _ _).1 hp
      refine ⟨[], post, ⟨by simpa using hpost, fun _ _ _ => Nat.zero_le _⟩, ?_⟩
      rw [← hpost]; exact (Option.some.inj h).symm
    · rw [if_neg hp] at h
      simp only [] at h
      obtain ⟨pre, post, ⟨h1, h2⟩, hs⟩ := ih h
      refine ⟨c :: pre, post, ⟨by simp [h1], fun pre1 post1 he => ?_⟩, hs⟩
      cases pre1 with
      | nil => exact absurd ((isPrefixOf_iff _ _).2 ⟨post1, by simpa using he⟩) hp
      | cons x xs =>
        simp only [List.cons_append, List.cons.injEq] at he
        have := h2 xs post1 (by simpa using he.2)
        simpa using this


/-- Without the prefix in the data, `process_response` fails and leaves the ID buffer alone. -/
theorem process_response_of_strstr_none (T : Nat)
    (conv : CStr → Nat → List Char → Nat → Int × List Char) (rd : Recv_Curl_Data)
    (id_bin : List Char) (h : strstr rd.data ID_PREFIX = none) :
    process_response T conv rd id_bin = (-1, id_bin) := by
  unfold process_response
  simp only [h]
  split <;> rfl

/-- The result of `process_response` in terms of what follows the first occurrence of the
prefix. -/
theorem process_response_of_first_occurrence (T : Nat)
    (conv : CStr → Nat → List Char → Nat → Int × List Char) (rd : Recv_Curl_Data)
    (id_bin : List Char) (pre post : CStr) (h : first_occurrence ID_PREFIX rd.data pre post) :
    process_response T conv rd id_bin =
      if rd.length < T * 2 + 11 then (-1, id_bin)
      else if post.length < T * 2 then (-1, id_bin)
      else if (conv (post.take (T * 2)) (T * 2) id_bin T).1 = -1 then
        (-1, (conv (post.take (T * 2)) (T * 2) id_bin T).2)
      else (0, (conv (post.take (T * 2)) (T * 2) id_bin T).2) := by
  have h11 : strlen ID_PREFIX = 11 := rfl
  unfold process_response
  simp only [strstr_of_first_occurrence _ _ _ _ h, h11]
  by_cases h1 : rd.length < T * 2 + 11
  · simp only [if_pos h1]
  · simp only [if_neg h1]
    have hlen : strlen (ID_PREFIX ++ post) = 11 + post.length := by
      unfold strlen
      rw [List.length_append]
      rfl
    have hdrop : (ID_PREFIX ++ post).drop 11 = post := by
      simp [ID_PREFIX]
    rw [hlen, hdrop]
    by_cases h2 : post.length < T * 2
    · rw [if_pos (by omega), if_pos h2]
    · rw [if_neg (by omega), if_neg h2]
      have h3 : strlen (post.take (T * 2)) = T * 2 := by
        simp [strlen, List.length_take]; omega
      rw [h3]

/-- C7: `process_response` returns 0 exactly when the received length is at least
`2 * TOX_ADDRESS_SIZE + 11` (the prefix has 11 characters; 87 for `TOX_ADDRESS_SIZE = 38`), the
data contains `ID_PREFIX`, at least `2 * TOX_ADDRESS_SIZE` (76) characters follow its first
occurrence, and the conversion accepts these characters; on success the ID buffer holds the
conversion of exactly these characters; every other result is -1. -/
theorem process_response_accepts_iff (TOX_ADDRESS_SIZE : Nat)
    (tox_pk_string_to_bytes : CStr → Nat → List Char → Nat → Int × List Char)
    (recv_data : Recv_Curl_Data) (id_bin : List Char) :
    strlen ID_PREFIX = 11 ∧
    ((process_response TOX_ADDRESS_SIZE tox_pk_string_to_bytes recv_data id_bin).1 = 0 ↔
      TOX_ADDRESS_SIZE * 2 + 11 ≤ recv_data.length ∧
      ∃ pre post, first_occurrence ID_PREFIX recv_data.data pre post ∧
        TOX_ADDRESS_SIZE * 2 ≤ post.length ∧
        (tox_pk_string_to_bytes (post.take (TOX_ADDRESS_SIZE * 2)) (TOX_ADDRESS_SIZE * 2)
          id_bin TOX_ADDRESS_SIZE).1 ≠ -1) ∧
    (∀ pre post, first_occurrence ID_PREFIX recv_data.data pre post →
      (process_response TOX_ADDRESS_SIZE tox_pk_string_to_bytes recv_data id_bin).1 = 0 →
      (process_response TOX_ADDRESS_SIZE tox_pk_string_to_bytes recv_data id_bin).2
        = (tox_pk_string_to_bytes (post.take (TOX_ADDRESS_SIZE * 2)) (TOX_ADDRESS_SIZE * 2)
            id_bin TOX_ADDRESS_SIZE).2) ∧
    ((process_response TOX_ADDRESS_SIZE tox_pk_string_to_bytes recv_data id_bin).1 ≠ 0 →
      (process_response TOX_ADDRESS_SIZE tox_pk_string_to_bytes recv_data id_bin).1 = -1) := by
  refine ⟨rfl, ?_, ?_, ?_⟩
  · cases hs : strstr recv_data.data ID_PREFIX with
    | none =>
      rw [process_response_of_strstr_none _ _ _ _ hs]
      constructor
      · intro h; simp at h
      · rintro ⟨_, pre, post, ⟨h1, _⟩, _⟩
        exact absurd h1 (strstr_none _ _ hs pre post)
    | some s =>
      obtain ⟨pre, post, hfo, _⟩ := strstr_some _ _ _ hs
      rw [process_response_of_first_occurrence _ _ _ _ pre post hfo]
      constructor
      · intro h
        split at h
        · simp at h
        · split at h
          · simp at h
          · split at h
            · simp at h
            · next h1 h2 h3 => exact ⟨by omega, pre, post, hfo, by omega, h3⟩
      · rintro ⟨h1, pre1, post1, hfo1, h2, h3⟩
        have hpost : post1 = post := by
          have e1 := strstr_of_first_occurrence _ _ _ _ hfo
          have e2 := strstr_of_first_occurrence _ _ _ _ hfo1
          rw [e1] at e2
          exact (List.append_cancel_left (Option.some.inj e2)).symm
        subst hpost
        rw [if_neg (by omega), if_neg (by omega), if_neg h3]
  · intro pre post hfo
    rw [process_response_of_first_occurrence _ _ _ _ pre post hfo]
    intro h
    split at h
    · simp at h
    · split at h
      · simp at h
      · split at h
        · simp at h
        · next h1 h2 h3 => rw [if_neg h1, if_neg h2, if_neg h3]
  · cases hs : strstr recv_data.data ID_PREFIX with
    | none =>
      rw [process_response_of_strstr_none _ _ _ _ hs]
      intro _; rfl
    | some s =>
      obtain ⟨pre, post, hfo, _⟩ := strstr_some _ _ _ hs
      rw [process_response_of_first_occurrence _ _ _ _ pre post hfo]
      intro h
      split
      · rfl
      · split
        · rfl
        · split
          · rfl
          · next h1 h2 h3 => rw [if_neg h1, if_neg h2, if_neg h3] at h; exact absurd rfl h

theorem process_response_accepts_iff_witness :
    (process_response 38 (fun _ _ _ _ => (0, List.replicate 38 'b'))
      ⟨"\x7b\"tox_id\": \"0123456789ABCDEF0123456789ABCDEF0123456789ABCDEF0123456789ABCDEF0123456789AB\"\x7d".toList, 90⟩
      (List.replicate 38 '\x00')).1 = 0 :=
  (process_response_accepts_iff 38 (fun _ _ _ _ => (0, List.replicate 38 'b'))
      ⟨"\x7b\"tox_id\": \"0123456789ABCDEF0123456789ABCDEF0123456789ABCDEF0123456789ABCDEF0123456789AB\"\x7d".toList, 90⟩
      (List.replicate 38 '\x00')).2.1.2
    ⟨by decide, ['\x7b'],
      "0123456789ABCDEF0123456789ABCDEF0123456789ABCDEF0123456789ABCDEF0123456789AB\"\x7d".toList,
      ⟨by decide, fun pre1 post1 he => by
        cases pre1 with
        | nil =>
          have hhead : some '\x7b' = some '"' := congrArg List.head? he
          exact absurd hhead (by decide)
        | cons x xs => exact Nat.succ_le_succ (Nat.zero_le _)⟩,
      by decide, by decide⟩

end Toxic
